import Mathlib

/-!
Shallow embedding of the diagnostic helper functions of the DoubleML tutorial
notebooks: the nuisance-prediction accuracy evaluator `pred_acc_irm`, the
propensity-score summarizer `rep_propscore_plot` and the PLR accuracy helper
`pred_acc_plr`.  Numeric data is modelled over `ℚ` (exact arithmetic in place
of the source's machine floats); the transcendental metric values (square
roots, logarithms) live in `ℝ`.  Prediction matrices of shape
`[n_obs, n_rep]` are modelled column-wise: one inner list per cross-fitting
repetition, mirroring the per-column loops of the source.
-/

/-- Error taxonomy of the helpers.  `invalidInputError` models the
"Treatment must be a binary variable." error raised by `pred_acc_irm`;
`dimensionMismatchError` models both the explicit `n_treat > 1` stop of the
R variant and the length-validation errors raised by the metric routines
(`sklearn.metrics` / `mlr3measures`) when a prediction column does not have
one entry per observation. -/
inductive Err where
  | invalidInputError
  | dimensionMismatchError
  deriving DecidableEq, Repr

/-- Mean of a list of rationals (empty list yields `0/0 = 0`). -/
def listMean (l : List ℚ) : ℚ := l.sum / l.length

/-- Mean squared error of predictions `p` against outcomes `y`, as computed
by `mean_squared_error` / `mlr3measures::rmse` before the final square
root. -/
def mse (y p : List ℚ) : ℚ := listMean (List.zipWith (fun a b => (a - b) ^ 2) y p)

/-- The blending loop of `pred_acc_irm` in regression mode: for each
observation `j`, pick `g0[j]` when `d[j] = 0` and `g1[j]` otherwise
(Python: `if d[j] == 0: ... g0[j,i] else: ... g1[j,i]`). -/
def blend : List ℚ → List ℚ → List ℚ → List ℚ
  | dj :: d, a :: c0, b :: c1 => (if dj = 0 then a else b) :: blend d c0 c1
  | _, _, _ => []

/-- The RMSE value of one repetition column in regression mode:
`sqrt(mean((y - blended)^2))`. -/
noncomputable def rmseVal (y d c0 c1 : List ℚ) : ℝ :=
  Real.sqrt ((mse y (blend d c0 c1) : ℚ) : ℝ)

/-- One repetition of the regression branch of `pred_acc_irm`, including the
length validation performed by the source (the blending loop indexes all of
`d`, `g0[:,i]`, `g1[:,i]` over `range(n)` and the metric routine rejects
prediction vectors whose length differs from `len(y)`). -/
noncomputable def rmseCol (y d c0 c1 : List ℚ) : Except Err ℝ :=
  if c0.length = y.length ∧ c1.length = y.length then .ok (rmseVal y d c0 c1)
  else .error .dimensionMismatchError

/-- The fixed clipping epsilon of the propensity branch:
`log_loss(d, m[:,i], eps=0.025)`. -/
def eps : ℚ := 1 / 40

/-- Clipping of a predicted probability into `[eps, 1-eps]`, as performed by
`sklearn.metrics.log_loss` via `np.clip(y_pred, eps, 1 - eps)`. -/
def clamp (p : ℚ) : ℚ := max eps (min p (1 - eps))

/-- One observation's contribution to the binary log loss:
`d*log(p) + (1-d)*log(1-p)` with the clipped probability `p`. -/
noncomputable def loglossTerm (dj p : ℚ) : ℝ :=
  dj * Real.log (clamp p) + (1 - dj) * Real.log (1 - (clamp p : ℝ))

/-- The log-loss value of one repetition column in propensity mode:
`-mean(d*log(p) + (1-d)*log(1-p))` over the observations. -/
noncomputable def loglossVal (d col : List ℚ) : ℝ :=
  -((List.zipWith loglossTerm d col).sum) / (d.length : ℝ)

/-- One repetition of the propensity branch of `pred_acc_irm`, including the
length validation performed by `log_loss` / `mlr3measures::logloss` (the
predicted-probability column must have one entry per observation). -/
noncomputable def loglossCol (d col : List ℚ) : Except Err ℝ :=
  if col.length = d.length then .ok (loglossVal d col)
  else .error .dimensionMismatchError

/-- Sequencing of the per-repetition loop: results are collected in column
order and the first error aborts the computation (an exception in the
source). -/
def collect : List (Except Err ℝ) → Except Err (List ℝ)
  | [] => .ok []
  | .error e :: _ => .error e
  | .ok v :: xs =>
    match collect xs with
    | .error e => .error e
    | .ok vs => .ok (v :: vs)

/-- The slice of a fitted `DoubleMLIRM` object read by the helpers: the
number of treatment columns of the data backend (`n_treat`), the outcome
and treatment vectors, and the stored nuisance prediction matrices
(`ml_g0`, `ml_g1`, `ml_m`), each stored as a list of repetition columns. -/
structure IRMModel where
  nTreat : ℕ
  y : List ℚ
  d : List ℚ
  g0 : List (List ℚ)
  g1 : List (List ℚ)
  m : List (List ℚ)

/-- The nuisance-accuracy evaluator `pred_acc_irm(obj, prop)`.  Checks, in
source order: more than one treatment column (R variant's explicit stop),
then binarity of the treatment vector, then computes per repetition column
either the blended-regression RMSE (`prop = false`) or the clipped binary
log loss (`prop = true`). -/
noncomputable def pred_acc_irm (obj : IRMModel) (prop : Bool) : Except Err (List ℝ) :=
  if 1 < obj.nTreat then .error .dimensionMismatchError
  else if ¬ (∀ x ∈ obj.d, x = 0 ∨ x = 1) then .error .invalidInputError
  else if prop = false then
    collect ((obj.g0.zip obj.g1).map fun c => rmseCol obj.y obj.d c.1 c.2)
  else
    collect (obj.m.map fun c => loglossCol obj.d c)

/-- Bucket index of one propensity prediction under the fixed histogram
convention of `rep_propscore_plot` (`hist(..., range=[0,1], bins=25)`):
values in `[0,1]` fall into the 25 equal-width buckets with edges `i/25`
(half-open, the last bucket closed), values outside `[0,1]` fall into no
bucket. -/
def bucketIdx (p : ℚ) : Option ℕ :=
  if 0 ≤ p ∧ p ≤ 1 then some (min ((p * 25).floor.toNat) 24) else none

/-- Histogram of one repetition column: the 25 bucket counts over the fixed
range `[0,1]`. -/
def hist25 (col : List ℚ) : List ℕ :=
  (List.range 25).map fun i => col.countP fun p => bucketIdx p == some i

/-- The propensity-score summarizer `rep_propscore_plot(obj)`: stops when
more than one treatment column exists, otherwise produces one histogram per
repetition column of the stored `ml_m` predictions. -/
def rep_propscore_plot (obj : IRMModel) : Except Err (List (List ℕ)) :=
  if 1 < obj.nTreat then .error .dimensionMismatchError
  else .ok (obj.m.map hist25)

/-- The slice of a fitted `DoubleMLPLR` object read by `pred_acc_plr`: the
outcome and treatment vectors, the fitted coefficient `theta` and the
stored nuisance predictions `ml_l` and `ml_m` (single repetition). -/
structure PLRModel where
  y : List ℚ
  d : List ℚ
  theta : ℚ
  ml_l : List ℚ
  ml_m : List ℚ

/-- The nuisance predictions selected by the `nuis` argument of
`pred_acc_plr` (`obj$predictions[[nuis]]`). -/
def mlNuis (obj : PLRModel) (nuis : String) : List ℚ :=
  if nuis = "ml_l" then obj.ml_l else obj.ml_m

/-- The blended prediction computed (but, in the source, never used) by
`pred_acc_plr`: `theta*d + ml_nuis` in the `ml_l` branch and `ml_nuis`
itself in the `ml_m` branch. -/
def export_pred (obj : PLRModel) (nuis : String) : List ℚ :=
  if nuis = "ml_l" then
    List.zipWith (fun di li => obj.theta * di + li) obj.d (mlNuis obj nuis)
  else mlNuis obj nuis

/-- Plain RMSE of a prediction vector against the outcomes, with the length
validation of `mlr3measures::rmse`. -/
noncomputable def rmsePlain (y p : List ℚ) : Except Err ℝ :=
  if p.length = y.length then .ok (Real.sqrt ((mse y p : ℚ) : ℝ))
  else .error .dimensionMismatchError

/-- The PLR accuracy helper `pred_acc_plr(obj, nuis)`.  Mirroring the
source, the blended prediction `export_pred` is computed and then the
returned value is `rmse(y, ml_nuis)` on the raw stored predictions. -/
noncomputable def pred_acc_plr (obj : PLRModel) (nuis : String) : Except Err ℝ :=
  let ep := export_pred obj nuis
  rmsePlain obj.y (mlNuis obj nuis)

/-- Bridging lemma: the executable `Rat.floor`-based bucket computation
agrees with Mathlib's `Nat.floor`. -/
lemma ratFloor_toNat (q : ℚ) : q.floor.toNat = ⌊q⌋₊ := by
  rw [(Rat.floor_def' q).trans Rat.floor_def.symm, Int.floor_toNat]

/-- Nat-floor form of `bucketIdx`. -/
lemma bucketIdx_eq (p : ℚ) :
    bucketIdx p = if 0 ≤ p ∧ p ≤ 1 then some (min ⌊p * 25⌋₊ 24) else none := by
  rw [bucketIdx, ratFloor_toNat]

/-- If every per-repetition computation succeeds, `collect` returns the list
of per-repetition values, in order. -/
lemma collect_map_ok {α : Type} (l : List α) (f : α → Except Err ℝ) (g : α → ℝ)
    (h : ∀ a ∈ l, f a = .ok (g a)) : collect (l.map f) = .ok (l.map g) := by
  induction l with
  | nil => rfl
  | cons a t ih =>
    rw [List.map_cons, h a (List.mem_cons_self a t), collect,
      ih fun b hb => h b (List.mem_cons_of_mem a hb), List.map_cons]

/-- On binary treatment vectors, the source's blending loop (`g0` where
`d = 0`, `g1` otherwise) agrees with the specification's formulation
(`g1` where `d = 1`, `g0` otherwise). -/
lemma blend_eq_spec (d c0 c1 : List ℚ) (hbin : ∀ x ∈ d, x = 0 ∨ x = 1) :
    blend d c0 c1 =
      List.zipWith (fun dj gc => if dj = 1 then gc.2 else gc.1) d (c0.zip c1) := by
  induction d generalizing c0 c1 with
  | nil => cases c0 <;> cases c1 <;> rfl
  | cons dj d ih =>
    cases c0 with
    | nil => rfl
    | cons a c0 =>
      cases c1 with
      | nil => rfl
      | cons b c1 =>
        rw [List.zip_cons_cons, List.zipWith_cons_cons, blend,
          ih c0 c1 fun x hx => hbin x (List.mem_cons_of_mem dj hx)]
        rcases hbin dj (List.mem_cons_self dj d) with h0 | h1
        · rw [if_pos h0, if_neg (by rw [h0]; norm_num)]
        · rw [if_neg (by rw [h1]; norm_num), if_pos h1]

/-- Length of the blended prediction vector. -/
lemma blend_length (d c0 c1 : List ℚ) :
    (blend d c0 c1).length = min d.length (min c0.length c1.length) := by
  induction d generalizing c0 c1 with
  | nil => cases c0 <;> cases c1 <;> simp only [blend, List.length_nil, List.length_cons] <;> omega
  | cons dj d ih =>
    cases c0 with
    | nil => simp only [blend, List.length_nil, List.length_cons]; omega
    | cons a c0 =>
      cases c1 with
      | nil => simp only [blend, List.length_nil, List.length_cons]; omega
      | cons b c1 =>
        simp only [blend, List.length_cons, ih c0 c1]
        omega

/-- Clipped probabilities always lie in `[eps, 1-eps]`. -/
lemma clamp_bounds (p : ℚ) : eps ≤ clamp p ∧ clamp p ≤ 1 - eps :=
  ⟨le_max_left _ _, max_le (by norm_num [eps]) (min_le_right _ _)⟩

/-- Each observation's log-loss contribution lies in `[-log 40, 0]` for a
binary treatment value, thanks to the clipping. -/
lemma loglossTerm_bounds (dj p : ℚ) (h : dj = 0 ∨ dj = 1) :
    -Real.log 40 ≤ loglossTerm dj p ∧ loglossTerm dj p ≤ 0 := by
  obtain ⟨hc1, hc2⟩ := clamp_bounds p
  have h1 : (1/40 : ℝ) ≤ (clamp p : ℝ) := by
    have hq : (1/40 : ℚ) ≤ clamp p := by simpa [eps] using hc1
    have := (Rat.cast_le (K := ℝ)).mpr hq
    push_cast at this
    linarith
  have h2 : (clamp p : ℝ) ≤ 1 - 1/40 := by
    have hq : clamp p ≤ 1 - 1/40 := by simpa [eps] using hc2
    have := (Rat.cast_le (K := ℝ)).mpr hq
    push_cast at this
    linarith
  have hlog40 : Real.log (1/40) = -Real.log 40 := by
    rw [one_div, Real.log_inv]
  rcases h with rfl | rfl
  · have he : loglossTerm 0 p = Real.log (1 - (clamp p : ℝ)) := by
      rw [loglossTerm]; push_cast; ring
    rw [he]
    constructor
    · rw [← hlog40]
      exact (Real.log_le_log_iff (by norm_num) (by linarith)).mpr (by linarith)
    · exact Real.log_nonpos (by linarith) (by linarith)
  · have he : loglossTerm 1 p = Real.log ((clamp p : ℝ)) := by
      rw [loglossTerm]; push_cast; ring
    rw [he]
    constructor
    · rw [← hlog40]
      exact (Real.log_le_log_iff (by norm_num) (by linarith)).mpr h1
    · exact Real.log_nonpos (by linarith) (by linarith)

/-- Summed log-loss contributions lie in `[-n·log 40, 0]`. -/
lemma loglossSum_bounds (d c : List ℚ) (hbin : ∀ x ∈ d, x = 0 ∨ x = 1) :
    -((d.length : ℝ) * Real.log 40) ≤ (List.zipWith loglossTerm d c).sum ∧
      (List.zipWith loglossTerm d c).sum ≤ 0 := by
  induction d generalizing c with
  | nil => simp
  | cons dj d ih =>
    cases c with
    | nil =>
      simp only [List.zipWith_nil_right, List.sum_nil]
      have h40 : 0 ≤ Real.log 40 := Real.log_nonneg (by norm_num)
      have hlen : (0:ℝ) ≤ (((dj :: d).length : ℕ) : ℝ) := by positivity
      constructor
      · nlinarith
      · exact le_refl 0
    | cons pj c =>
      obtain ⟨ih1, ih2⟩ := ih c fun x hx => hbin x (List.mem_cons_of_mem dj hx)
      obtain ⟨t1, t2⟩ := loglossTerm_bounds dj pj (hbin dj (List.mem_cons_self dj d))
      rw [List.zipWith_cons_cons, List.sum_cons]
      constructor
      · push_cast [List.length_cons]
        push_cast [List.length_cons] at ih1
        linarith
      · linarith

/-- The per-repetition log loss is non-negative and at most `log 40`. -/
lemma loglossVal_bounds (d c : List ℚ) (hbin : ∀ x ∈ d, x = 0 ∨ x = 1) :
    0 ≤ loglossVal d c ∧ loglossVal d c ≤ Real.log 40 := by
  obtain ⟨hlo, hhi⟩ := loglossSum_bounds d c hbin
  rw [loglossVal]
  constructor
  · exact div_nonneg (by linarith) (by positivity)
  · rcases Nat.eq_zero_or_pos d.length with h0 | hpos
    · rw [h0]
      norm_num
      exact Real.log_nonneg (by norm_num)
    · have hpos' : (0:ℝ) < (d.length : ℝ) := by exact_mod_cast hpos
      rw [div_le_iff hpos', mul_comm]
      linarith

/-- C3 (amended), counterexample to the claim as stated: on an input whose
treatment vector contains the value 2 but which also has more than one
treatment column, the evaluator raises the multi-treatment
`dimensionMismatchError`, not `invalidInputError`. -/
theorem pred_acc_irm_nonbinary_counterexample :
    pred_acc_irm ⟨2, [1], [2], [[1]], [[1]], [[1]]⟩ false = .error .dimensionMismatchError ∧
      Err.dimensionMismatchError ≠ Err.invalidInputError :=
  ⟨rfl, by decide⟩

/-- C3 (amended): for every single-treatment input whose treatment vector
contains a value other than 0 or 1, `pred_acc_irm` fails with
`invalidInputError` (the "Treatment must be a binary variable." error) and
computes no accuracy result. -/
theorem pred_acc_irm_nonbinary_invalid_input (obj : IRMModel) (prop : Bool)
    (hnt : obj.nTreat ≤ 1) (hbad : ¬ (∀ x ∈ obj.d, x = 0 ∨ x = 1)) :
    pred_acc_irm obj prop = .error .invalidInputError := by
  rw [pred_acc_irm, if_neg (by omega), if_pos hbad]

/-- C3 witness: concrete single-treatment input with treatment value 2. -/
theorem pred_acc_irm_nonbinary_invalid_input_witness :
    (1 : ℕ) ≤ 1 ∧
      pred_acc_irm ⟨1, [1], [2], [[1]], [[1]], [[1]]⟩ false = .error .invalidInputError :=
  ⟨by norm_num,
    pred_acc_irm_nonbinary_invalid_input ⟨1, [1], [2], [[1]], [[1]], [[1]]⟩ false
      (by norm_num) (by norm_num)⟩

/-- C4 (amended), counterexample to the claim as stated: on an input whose
prediction matrix row count (1) differs from the observation count (2) but
whose treatment vector is non-binary, the evaluator raises
`invalidInputError` (the binary check runs before the metric's length
validation), not `dimensionMismatchError`. -/
theorem pred_acc_irm_dimension_counterexample :
    pred_acc_irm ⟨1, [1, 2], [2, 2], [[1]], [[1]], [[1]]⟩ false = .error .invalidInputError ∧
      Err.invalidInputError ≠ Err.dimensionMismatchError :=
  ⟨rfl, by decide⟩

/-- C4 (amended): a multi-treatment input always fails with
`dimensionMismatchError`; a single-treatment input with a binary treatment
vector and at least one repetition column whose prediction matrix row count
`h` differs from the observation count `n` fails with
`dimensionMismatchError` in both modes. -/
theorem pred_acc_irm_dimension_mismatch :
    (∀ (obj : IRMModel) (prop : Bool), 1 < obj.nTreat →
      pred_acc_irm obj prop = .error .dimensionMismatchError)
    ∧ (∀ (obj : IRMModel) (h n : ℕ), obj.nTreat ≤ 1 →
        (∀ x ∈ obj.d, x = 0 ∨ x = 1) → obj.y.length = n → obj.d.length = n → h ≠ n →
        (∀ c ∈ obj.g0, c.length = h) → (∀ c ∈ obj.g1, c.length = h) →
        (∀ c ∈ obj.m, c.length = h) →
        (obj.g0 ≠ [] → obj.g1 ≠ [] →
          pred_acc_irm obj false = .error .dimensionMismatchError)
        ∧ (obj.m ≠ [] → pred_acc_irm obj true = .error .dimensionMismatchError)) := by
  constructor
  · intro obj prop hgt
    rw [pred_acc_irm, if_pos hgt]
  · intro obj h n hnt hbin hy hd hne hg0 hg1 hm
    constructor
    · intro h0ne h1ne
      obtain ⟨c0, g0', he0⟩ := List.exists_cons_of_ne_nil h0ne
      obtain ⟨c1, g1', he1⟩ := List.exists_cons_of_ne_nil h1ne
      rw [pred_acc_irm, if_neg (by omega), if_neg (not_not_intro hbin), if_pos rfl,
        he0, he1, List.zip_cons_cons, List.map_cons, rmseCol,
        if_neg (by
          rw [hg0 c0 (by rw [he0]; exact List.mem_cons_self c0 g0'), hy]
          exact fun hc => hne hc.1),
        collect]
    · intro hmne
      obtain ⟨cm, m', hem⟩ := List.exists_cons_of_ne_nil hmne
      rw [pred_acc_irm, if_neg (by omega), if_neg (not_not_intro hbin),
        if_neg (by norm_num), hem, List.map_cons, loglossCol,
        if_neg (by
          rw [hm cm (by rw [hem]; exact List.mem_cons_self cm m'), hd]
          exact hne),
        collect]

/-- C4 witness: concrete single-treatment binary input whose prediction
matrices have 2 rows against 1 observation. -/
theorem pred_acc_irm_dimension_mismatch_witness :
    (1 : ℕ) ≤ 1 ∧ (2 : ℕ) ≠ 1 ∧
      pred_acc_irm ⟨1, [0], [0], [[1, 1]], [[1, 1]], [[1, 1]]⟩ false
        = .error .dimensionMismatchError ∧
      pred_acc_irm ⟨1, [0], [0], [[1, 1]], [[1, 1]], [[1, 1]]⟩ true
        = .error .dimensionMismatchError := by
  refine ⟨by norm_num, by norm_num, ?_, ?_⟩
  · exact (pred_acc_irm_dimension_mismatch.2 ⟨1, [0], [0], [[1, 1]], [[1, 1]], [[1, 1]]⟩ 2 1
      (by norm_num) (by norm_num) (by norm_num) (by norm_num) (by norm_num)
      (by norm_num) (by norm_num) (by norm_num)).1 (by norm_num) (by norm_num)
  · exact (pred_acc_irm_dimension_mismatch.2 ⟨1, [0], [0], [[1, 1]], [[1, 1]], [[1, 1]]⟩ 2 1
      (by norm_num) (by norm_num) (by norm_num) (by norm_num) (by norm_num)
      (by norm_num) (by norm_num) (by norm_num)).2 (by norm_num)

/-- C5: on every input with more than one treatment column, the
propensity-score summarizer fails with `dimensionMismatchError` and
produces no histogram summary. -/
theorem rep_propscore_plot_multitreat_error (obj : IRMModel) (hgt : 1 < obj.nTreat) :
    rep_propscore_plot obj = .error .dimensionMismatchError := by
  rw [rep_propscore_plot, if_pos hgt]

/-- C5 witness: concrete two-treatment input. -/
theorem rep_propscore_plot_multitreat_error_witness :
    1 < 2 ∧ rep_propscore_plot ⟨2, [], [], [], [], [[1]]⟩ = .error .dimensionMismatchError :=
  ⟨by norm_num, rep_propscore_plot_multitreat_error ⟨2, [], [], [], [], [[1]]⟩ (by norm_num)⟩

/-- C10: the PLR accuracy helper returns the RMSE of the outcomes against
the raw stored nuisance predictions `ml_nuis`; the blended prediction
`export_pred` (which is `theta*d + ml_nuis` in the `ml_l` branch) is
computed but never used, so the returned value is identical for any two
model objects differing only in the fitted coefficient `theta`. -/
theorem pred_acc_plr_ignores_theta :
    (∀ (obj : PLRModel) (nuis : String),
      pred_acc_plr obj nuis = rmsePlain obj.y (mlNuis obj nuis))
    ∧ (∀ (y d : List ℚ) (t t' : ℚ) (l0 m0 : List ℚ) (nuis : String),
      pred_acc_plr ⟨y, d, t, l0, m0⟩ nuis = pred_acc_plr ⟨y, d, t', l0, m0⟩ nuis)
    ∧ (∀ obj : PLRModel,
      export_pred obj "ml_l" =
        List.zipWith (fun di li => obj.theta * di + li) obj.d obj.ml_l) :=
  ⟨fun _ _ => rfl, fun _ _ _ _ _ _ _ => rfl, fun obj => by simp [export_pred, mlNuis]⟩

/-- C1: in regression mode, for every binary treatment vector and prediction
matrices of shape `[n, repetitions]`, the evaluator returns, per repetition
column, `sqrt(mean((y - blended)^2))` where the blended prediction picks the
treated-arm column where `d = 1` and the control-arm column otherwise; on
`y = [1,2,3,4]`, `d = [0,1,0,1]`, `g0 = [1,1,1,1]`, `g1 = [2,2,2,2]` the
result is `[sqrt 2]`. -/
theorem pred_acc_irm_regression_rmse
    (nt n : ℕ) (y d : List ℚ) (g0 g1 m : List (List ℚ))
    (hnt : nt ≤ 1) (hy : y.length = n) (hd : d.length = n)
    (hg0 : ∀ c ∈ g0, c.length = n) (hg1 : ∀ c ∈ g1, c.length = n)
    (hbin : ∀ x ∈ d, x = 0 ∨ x = 1) :
    pred_acc_irm ⟨nt, y, d, g0, g1, m⟩ false =
      .ok ((g0.zip g1).map fun c =>
        Real.sqrt (((List.zipWith (fun a b => (a - b) ^ 2) y
          (List.zipWith (fun dj gc => if dj = 1 then gc.2 else gc.1)
            d (c.1.zip c.2))).sum / (n : ℚ) : ℚ) : ℝ)) ∧
    pred_acc_irm ⟨1, [1, 2, 3, 4], [0, 1, 0, 1], [[1, 1, 1, 1]], [[2, 2, 2, 2]], []⟩ false
      = .ok [Real.sqrt 2] := by
  constructor
  · rw [pred_acc_irm, if_neg (show ¬ 1 < nt by omega), if_neg (not_not_intro hbin), if_pos rfl]
    apply collect_map_ok
    intro c hc
    obtain ⟨a, b⟩ := c
    obtain ⟨h1, h2⟩ := List.of_mem_zip hc
    rw [rmseCol, if_pos ⟨by rw [hg0 a h1, hy], by rw [hg1 b h2, hy]⟩]
    congr 1
    rw [rmseVal, blend_eq_spec d a b hbin]
    congr 2
    rw [mse, listMean]
    have hlen : (List.zipWith (fun a b => (a - b) ^ 2) y
        (List.zipWith (fun dj gc => if dj = 1 then gc.2 else gc.1) d (a.zip b))).length = n := by
      rw [List.length_zipWith, List.length_zipWith, List.length_zip,
        hg0 a h1, hg1 b h2, hy, hd]
      omega
    rw [hlen]
  · rw [pred_acc_irm]
    rw [if_neg (by norm_num), if_neg (by norm_num), if_pos rfl]
    simp only [List.zip_cons_cons, List.zip_nil_right, List.map_cons, List.map_nil]
    rw [rmseCol, if_pos (by norm_num)]
    rw [collect, collect]
    have hv : rmseVal [1, 2, 3, 4] [0, 1, 0, 1] [1, 1, 1, 1] [2, 2, 2, 2] = Real.sqrt 2 := by
      rw [rmseVal]
      norm_num [mse, listMean, blend, List.zipWith]
    rw [hv]

/-- C1 witness: the end-to-end regression example. -/
theorem pred_acc_irm_regression_rmse_witness :
    (1 : ℕ) ≤ 1 ∧
      pred_acc_irm ⟨1, [1, 2, 3, 4], [0, 1, 0, 1], [[1, 1, 1, 1]], [[2, 2, 2, 2]], []⟩ false
        = .ok [Real.sqrt 2] :=
  ⟨by norm_num,
    (pred_acc_irm_regression_rmse 1 4 [1, 2, 3, 4] [0, 1, 0, 1] [[1, 1, 1, 1]] [[2, 2, 2, 2]] []
      (by norm_num) (by norm_num) (by norm_num) (by norm_num) (by norm_num) (by norm_num)).2⟩

/-- C2: in propensity mode, for every binary treatment vector and prediction
matrix with entries in `[0,1]`, the evaluator returns, per repetition
column, the binary log loss `-mean(d*log(p) + (1-d)*log(1-p))` with
probabilities clipped to `[0.025, 1 - 0.025]`; on `d = [0,1]`,
`m = [0.1, 0.9]` the result is `[-log(9/10)]`, which lies in
`[1/10, 1/9]` (≈ 0.105). -/
theorem pred_acc_irm_propensity_logloss
    (nt n : ℕ) (y d : List ℚ) (g0 g1 m : List (List ℚ))
    (hnt : nt ≤ 1) (hd : d.length = n) (hm : ∀ c ∈ m, c.length = n)
    (hbin : ∀ x ∈ d, x = 0 ∨ x = 1)
    (hrange : ∀ c ∈ m, ∀ p ∈ c, 0 ≤ p ∧ p ≤ 1) :
    (pred_acc_irm ⟨nt, y, d, g0, g1, m⟩ true =
      .ok (m.map fun c =>
        -((List.zipWith (fun (dj pj : ℚ) =>
            (dj : ℝ) * Real.log ((max (1/40 : ℚ) (min pj (1 - 1/40)) : ℚ) : ℝ) +
            (1 - (dj : ℝ)) * Real.log (1 - ((max (1/40 : ℚ) (min pj (1 - 1/40)) : ℚ) : ℝ)))
          d c).sum) / (n : ℝ)))
    ∧ pred_acc_irm ⟨1, [], [0, 1], [], [], [[1/10, 9/10]]⟩ true = .ok [-Real.log (9/10)]
    ∧ (1/10 : ℝ) ≤ -Real.log (9/10) ∧ -Real.log (9/10) ≤ 1/9 := by
  have hfun : loglossTerm = fun (dj pj : ℚ) =>
      (dj : ℝ) * Real.log ((max (1/40 : ℚ) (min pj (1 - 1/40)) : ℚ) : ℝ) +
      (1 - (dj : ℝ)) * Real.log (1 - ((max (1/40 : ℚ) (min pj (1 - 1/40)) : ℚ) : ℝ)) := by
    funext dj pj
    rw [loglossTerm, clamp, eps]
  refine ⟨?_, ?_, ?_, ?_⟩
  · rw [pred_acc_irm, if_neg (show ¬ 1 < nt by omega), if_neg (not_not_intro hbin),
      if_neg (by norm_num)]
    apply collect_map_ok
    intro c hc
    rw [loglossCol, if_pos (by rw [hm c hc, hd])]
    congr 1
    rw [loglossVal, hfun, hd]
  · rw [pred_acc_irm]
    rw [if_neg (by norm_num), if_neg (by norm_num), if_neg (by norm_num)]
    simp only [List.map_cons, List.map_nil]
    rw [loglossCol, if_pos (by norm_num)]
    rw [collect, collect]
    have hv : loglossVal [0, 1] [1/10, 9/10] = -Real.log (9/10) := by
      rw [loglossVal]
      norm_num [loglossTerm, clamp, eps, List.zipWith]
    rw [hv]
  · have h := Real.log_le_sub_one_of_pos (show (0:ℝ) < 9/10 by norm_num)
    linarith
  · have h1 : -Real.log (9/10) = Real.log ((9/10 : ℝ)⁻¹) := (Real.log_inv _).symm
    have h2 := Real.log_le_sub_one_of_pos (show (0:ℝ) < (9/10 : ℝ)⁻¹ by norm_num)
    rw [h1]
    have h3 : ((9/10 : ℝ))⁻¹ = 10/9 := by norm_num
    rw [h3] at h2 ⊢
    linarith

/-- C2 witness: the end-to-end propensity example. -/
theorem pred_acc_irm_propensity_logloss_witness :
    (1 : ℕ) ≤ 1 ∧
      pred_acc_irm ⟨1, [], [0, 1], [], [], [[1/10, 9/10]]⟩ true = .ok [-Real.log (9/10)] :=
  ⟨by norm_num,
    (pred_acc_irm_propensity_logloss 1 2 [] [0, 1] [] [] [[1/10, 9/10]]
      (by norm_num) (by norm_num) (by norm_num) (by norm_num) (by norm_num)).2.1⟩

/-- C6: on every valid single-treatment input with `r` repetition columns,
the evaluator succeeds and returns exactly `r` scalars, the `i`-th being
the metric (`loglossVal` in propensity mode, `rmseVal` in regression mode)
of the `i`-th repetition column alone, in column order. -/
theorem pred_acc_irm_per_repetition (obj : IRMModel) (prop : Bool) (n : ℕ)
    (hnt : obj.nTreat ≤ 1) (hy : obj.y.length = n) (hd : obj.d.length = n)
    (hg0 : ∀ c ∈ obj.g0, c.length = n) (hg1 : ∀ c ∈ obj.g1, c.length = n)
    (hm : ∀ c ∈ obj.m, c.length = n) (hr : obj.g0.length = obj.g1.length)
    (hbin : ∀ x ∈ obj.d, x = 0 ∨ x = 1) :
    pred_acc_irm obj prop =
      .ok (if prop then obj.m.map fun c => loglossVal obj.d c
           else (obj.g0.zip obj.g1).map fun c => rmseVal obj.y obj.d c.1 c.2) ∧
    (if prop then obj.m.map fun c => loglossVal obj.d c
     else (obj.g0.zip obj.g1).map fun c => rmseVal obj.y obj.d c.1 c.2).length
      = (if prop then obj.m.length else obj.g0.length) := by
  obtain ⟨nt, y, d, g0, g1, m⟩ := obj
  simp only at hnt hy hd hg0 hg1 hm hr hbin
  cases prop with
  | false =>
    simp only [Bool.false_eq_true, if_false]
    constructor
    · rw [pred_acc_irm, if_neg (show ¬ 1 < nt by omega), if_neg (not_not_intro hbin), if_pos rfl]
      apply collect_map_ok
      intro c hc
      obtain ⟨a, b⟩ := c
      obtain ⟨h1, h2⟩ := List.of_mem_zip hc
      rw [rmseCol, if_pos ⟨by rw [hg0 a h1, hy], by rw [hg1 b h2, hy]⟩]
    · rw [List.length_map, List.length_zip, hr]
      omega
  | true =>
    simp only [if_true]
    constructor
    · rw [pred_acc_irm, if_neg (show ¬ 1 < nt by omega), if_neg (not_not_intro hbin),
        if_neg (by norm_num)]
      apply collect_map_ok
      intro c hc
      rw [loglossCol, if_pos (by rw [hm c hc, hd])]
    · rw [List.length_map]

/-- C6 witness: concrete valid input with one repetition column in each
mode. -/
theorem pred_acc_irm_per_repetition_witness :
    (1 : ℕ) ≤ 1 ∧
      pred_acc_irm ⟨1, [1, 2], [0, 1], [[1, 1]], [[2, 2]], [[1, 1]]⟩ false
        = .ok [rmseVal [1, 2] [0, 1] [1, 1] [2, 2]] ∧
      pred_acc_irm ⟨1, [1, 2], [0, 1], [[1, 1]], [[2, 2]], [[1, 1]]⟩ true
        = .ok [loglossVal [0, 1] [1, 1]] := by
  refine ⟨by norm_num, ?_, ?_⟩
  · exact (pred_acc_irm_per_repetition ⟨1, [1, 2], [0, 1], [[1, 1]], [[2, 2]], [[1, 1]]⟩
      false 2 (by norm_num) (by norm_num) (by norm_num) (by norm_num) (by norm_num)
      (by norm_num) (by norm_num) (by norm_num)).1
  · exact (pred_acc_irm_per_repetition ⟨1, [1, 2], [0, 1], [[1, 1]], [[2, 2]], [[1, 1]]⟩
      true 2 (by norm_num) (by norm_num) (by norm_num) (by norm_num) (by norm_num)
      (by norm_num) (by norm_num) (by norm_num)).1

/-- C7: in propensity mode, on every binary treatment vector and prediction
matrix whose entries lie strictly between `eps` and `1 - eps`, the
evaluator succeeds and every returned log loss is non-negative and bounded
above by `log 40` (in particular finite). -/
theorem pred_acc_irm_logloss_nonneg (obj : IRMModel) (n : ℕ)
    (hnt : obj.nTreat ≤ 1) (hd : obj.d.length = n) (hm : ∀ c ∈ obj.m, c.length = n)
    (hbin : ∀ x ∈ obj.d, x = 0 ∨ x = 1)
    (hrange : ∀ c ∈ obj.m, ∀ p ∈ c, eps < p ∧ p < 1 - eps) :
    pred_acc_irm obj true = .ok (obj.m.map fun c => loglossVal obj.d c) ∧
    ∀ x ∈ obj.m.map fun c => loglossVal obj.d c, 0 ≤ x ∧ x ≤ Real.log 40 := by
  obtain ⟨nt, y, d, g0, g1, m⟩ := obj
  simp only at hnt hd hm hbin hrange
  constructor
  · rw [pred_acc_irm, if_neg (show ¬ 1 < nt by omega), if_neg (not_not_intro hbin),
      if_neg (by norm_num)]
    apply collect_map_ok
    intro c hc
    rw [loglossCol, if_pos (by rw [hm c hc, hd])]
  · intro x hx
    obtain ⟨c, hc, rfl⟩ := List.mem_map.mp hx
    exact loglossVal_bounds d c hbin

/-- C7 witness: concrete propensity predictions strictly inside the
clipping band. -/
theorem pred_acc_irm_logloss_nonneg_witness :
    (1 : ℕ) ≤ 1 ∧
      pred_acc_irm ⟨1, [], [0, 1], [], [], [[1/2, 1/2]]⟩ true
        = .ok [loglossVal [0, 1] [1/2, 1/2]] ∧
      0 ≤ loglossVal [0, 1] [1/2, 1/2] ∧ loglossVal [0, 1] [1/2, 1/2] ≤ Real.log 40 := by
  refine ⟨by norm_num, ?_, ?_⟩
  · exact (pred_acc_irm_logloss_nonneg ⟨1, [], [0, 1], [], [], [[1/2, 1/2]]⟩ 2
      (by norm_num) (by norm_num) (by norm_num) (by norm_num) (by norm_num [eps])).1
  · exact (pred_acc_irm_logloss_nonneg ⟨1, [], [0, 1], [], [], [[1/2, 1/2]]⟩ 2
      (by norm_num) (by norm_num) (by norm_num) (by norm_num) (by norm_num [eps])).2
      (loglossVal [0, 1] [1/2, 1/2]) (by simp)

/-- A prediction outside `[0,1]` falls into no bucket. -/
lemma bucketIdx_none (p : ℚ) (hp : ¬ (0 ≤ p ∧ p ≤ 1)) : bucketIdx p = none := by
  rw [bucketIdx_eq, if_neg hp]

/-- A bucket index returned by `bucketIdx` is one of the 25 buckets. -/
lemma bucketIdx_lt25 (p : ℚ) (k : ℕ) (h : bucketIdx p = some k) : k < 25 := by
  rw [bucketIdx_eq] at h
  by_cases hp : 0 ≤ p ∧ p ≤ 1
  · rw [if_pos hp, Option.some_inj] at h
    have := min_le_right ⌊p * 25⌋₊ 24
    omega
  · rw [if_neg hp] at h
    cases h

/-- Characterization of bucket membership: for `i < 25`, a prediction lands
in bucket `i` precisely when it lies in the `i`-th of the 25 equal-width
subintervals of `[0,1]` (half-open, the last bucket closed on the right). -/
lemma bucketIdx_eq_some_iff (i : ℕ) (hi : i < 25) (p : ℚ) :
    bucketIdx p = some i ↔
      (((i : ℚ)/25 ≤ p ∧ p < ((i : ℚ) + 1)/25) ∨
        (i = 24 ∧ (24 : ℚ)/25 ≤ p ∧ p ≤ 1)) := by
  have h25 : (0:ℚ) < 25 := by norm_num
  rw [bucketIdx_eq]
  by_cases hp : 0 ≤ p ∧ p ≤ 1
  · have hq : (0:ℚ) ≤ p * 25 := by nlinarith [hp.1]
    rw [if_pos hp, Option.some_inj]
    constructor
    · intro h
      by_cases h24 : 24 ≤ ⌊p * 25⌋₊
      · rw [min_eq_right h24] at h
        subst h
        refine Or.inr ⟨rfl, ?_, hp.2⟩
        have h1 : ((24:ℕ):ℚ) ≤ p * 25 := (Nat.le_floor_iff hq).mp h24
        rw [div_le_iff h25]
        exact_mod_cast h1
      · push_neg at h24
        rw [min_eq_left (Nat.le_of_lt h24)] at h
        have hf := (Nat.floor_eq_iff hq).mp h
        left
        constructor
        · rw [div_le_iff h25]; exact_mod_cast hf.1
        · rw [lt_div_iff h25]; exact_mod_cast hf.2
    · intro h
      rcases h with ⟨hl, hr⟩ | ⟨hie, hl, hr⟩
      · rw [div_le_iff h25] at hl
        rw [lt_div_iff h25] at hr
        have hf : ⌊p * 25⌋₊ = i :=
          (Nat.floor_eq_iff hq).mpr ⟨by exact_mod_cast hl, by exact_mod_cast hr⟩
        rw [hf, min_eq_left (by omega)]
      · subst hie
        rw [div_le_iff h25] at hl
        have h24 : 24 ≤ ⌊p * 25⌋₊ := (Nat.le_floor_iff hq).mpr (by exact_mod_cast hl)
        rw [min_eq_right h24]
  · rw [if_neg hp]
    constructor
    · intro h
      exact absurd h (by simp)
    · intro h
      exfalso
      rw [not_and_or, not_le, not_le] at hp
      rcases h with ⟨hl, hr⟩ | ⟨hie, hl, hr⟩
      · rcases hp with hneg | hgt
        · have hpos : (0:ℚ) ≤ (i:ℚ)/25 := by positivity
          linarith
        · have hle : ((i:ℚ) + 1)/25 ≤ 1 := by
            rw [div_le_one h25]
            have hile : (i:ℚ) ≤ 24 := by exact_mod_cast Nat.le_of_lt_succ hi
            linarith
          linarith
      · subst hie
        rcases hp with hneg | hgt
        · have hpos : (0:ℚ) < (24:ℚ)/25 := by norm_num
          linarith
        · linarith

/-- Sum of the pointwise sum of two list maps. -/
lemma list_sum_map_add {α : Type} (l : List α) (f g : α → ℕ) :
    (l.map fun i => f i + g i).sum = (l.map f).sum + (l.map g).sum := by
  induction l with
  | nil => rfl
  | cons a t ih =>
    simp only [List.map_cons, List.sum_cons, ih]
    omega

/-- An equality indicator summed over `range n` counts its target once. -/
lemma indicator_sum_range (n k : ℕ) (hk : k < n) :
    ((List.range n).map fun i => if k = i then (1:ℕ) else 0).sum = 1 := by
  induction n with
  | zero => omega
  | succ n ih =>
    rw [List.range_succ, List.map_append, List.sum_append]
    by_cases h : k < n
    · rw [ih h]
      simp [Nat.ne_of_lt h]
    · have hkn : k = n := by omega
      subst hkn
      have hz : ((List.range k).map fun i => if k = i then (1:ℕ) else 0).sum = 0 := by
        apply List.sum_eq_zero
        intro x hx
        obtain ⟨i, hi, rfl⟩ := List.mem_map.mp hx
        rw [List.mem_range] at hi
        rw [if_neg (by omega)]
      rw [hz]
      simp

/-- Summing the 25 bucket indicators of one prediction yields 1 when it is
in range and 0 otherwise. -/
lemma bucket_indicator_sum (p : ℚ) :
    ((List.range 25).map fun i => if bucketIdx p == some i then (1:ℕ) else 0).sum
      = if 0 ≤ p ∧ p ≤ 1 then 1 else 0 := by
  by_cases hp : 0 ≤ p ∧ p ≤ 1
  · obtain ⟨k, hk⟩ : ∃ k, bucketIdx p = some k :=
      ⟨min ((p * 25).floor.toNat) 24, by rw [bucketIdx, if_pos hp]⟩
    have hk25 : k < 25 := bucketIdx_lt25 p k hk
    have hfun : (fun i => if bucketIdx p == some i then (1:ℕ) else 0)
        = fun i => if k = i then (1:ℕ) else 0 := by
      funext i
      simp only [hk, beq_iff_eq, Option.some.injEq]
    rw [if_pos hp, hfun, indicator_sum_range 25 k hk25]
  · rw [bucketIdx_none p hp, if_neg hp]
    simp

/-- Conservation of the histogram counts: the 25 bucket counts of one
column sum to the number of its in-range predictions. -/
lemma hist25_sum_eq (col : List ℚ) :
    (hist25 col).sum = col.countP fun p => decide (0 ≤ p ∧ p ≤ 1) := by
  rw [hist25]
  induction col with
  | nil => simp
  | cons p t ih =>
    simp only [List.countP_cons, ih]
    rw [list_sum_map_add (List.range 25)
      (fun i => t.countP fun q => bucketIdx q == some i)
      (fun i => if bucketIdx p == some i then (1:ℕ) else 0)]
    rw [ih, bucket_indicator_sum p]
    by_cases hp : 0 ≤ p ∧ p ≤ 1 <;> simp [hp]

/-- C8: the summarizer partitions `[0,1]` into exactly 25 equal-width
buckets and counts each column's predictions per bucket; on the single
column `[0.02, 0.5, 0.98]` the buckets covering `[0, 0.04)`,
`[0.48, 0.52)` and `[0.96, 1]` each count 1 and every other bucket 0. -/
theorem rep_propscore_plot_equal_width_buckets :
    (∀ obj : IRMModel, obj.nTreat ≤ 1 → rep_propscore_plot obj = .ok (obj.m.map hist25))
    ∧ (∀ col : List ℚ, (hist25 col).length = 25)
    ∧ (∀ (col : List ℚ) (i : ℕ) (hi : i < (hist25 col).length),
        (hist25 col).get ⟨i, hi⟩ = col.countP fun p =>
          decide (((i : ℚ)/25 ≤ p ∧ p < ((i : ℚ) + 1)/25) ∨
            (i = 24 ∧ (24 : ℚ)/25 ≤ p ∧ p ≤ 1)))
    ∧ hist25 [1/50, 1/2, 49/50] =
        [1, 0, 0, 0, 0, 0, 0, 0, 0, 0, 0, 0, 1, 0, 0, 0, 0, 0, 0, 0, 0, 0, 0, 0, 1] := by
  refine ⟨?_, ?_, ?_, ?_⟩
  · intro obj h
    rw [rep_propscore_plot, if_neg (by omega)]
  · intro col
    rw [hist25, List.length_map, List.length_range]
  · intro col i hi
    have hi25 : i < 25 := by
      rw [hist25, List.length_map, List.length_range] at hi
      exact hi
    simp only [hist25, List.get_eq_getElem, List.getElem_map, List.getElem_range]
    apply List.countP_congr
    intro p _
    simp only [beq_iff_eq, decide_eq_true_eq]
    exact bucketIdx_eq_some_iff i hi25 p
  · have h1 : bucketIdx (1/50) = some 0 := by
      rw [bucketIdx_eq, if_pos (by norm_num)]
      norm_num [Nat.floor_eq_zero]
    have h2 : bucketIdx (1/2) = some 12 := by
      rw [bucketIdx_eq, if_pos (by norm_num)]
      rw [show ⌊(1/2 : ℚ) * 25⌋₊ = 12 by rw [Nat.floor_eq_iff (by norm_num)]; norm_num]
      decide
    have h3 : bucketIdx (49/50) = some 24 := by
      rw [bucketIdx_eq, if_pos (by norm_num)]
      rw [show ⌊(49/50 : ℚ) * 25⌋₊ = 24 by rw [Nat.floor_eq_iff (by norm_num)]; norm_num]
      decide
    simp only [hist25, List.countP_cons, List.countP_nil, h1, h2, h3]
    decide

/-- C8 witness: summarizer output on the concrete example column. -/
theorem rep_propscore_plot_equal_width_buckets_witness :
    (1 : ℕ) ≤ 1 ∧
      rep_propscore_plot ⟨1, [], [], [], [], [[1/50, 1/2, 49/50]]⟩
        = .ok [hist25 [1/50, 1/2, 49/50]] :=
  ⟨by norm_num,
    rep_propscore_plot_equal_width_buckets.1
      ⟨1, [], [], [], [], [[1/50, 1/2, 49/50]]⟩ (by norm_num)⟩

/-- C9: per column, the 25 bucket counts sum to exactly the number of
predictions lying in `[0,1]`; out-of-range predictions are not rejected
(the summarizer still succeeds) but fall into no bucket. -/
theorem hist25_conservation :
    (∀ col : List ℚ, (hist25 col).sum = col.countP fun p => decide (0 ≤ p ∧ p ≤ 1))
    ∧ (∀ p : ℚ, ¬ (0 ≤ p ∧ p ≤ 1) → bucketIdx p = none)
    ∧ (∀ obj : IRMModel, obj.nTreat ≤ 1 → rep_propscore_plot obj = .ok (obj.m.map hist25)) := by
  refine ⟨hist25_sum_eq, bucketIdx_none, ?_⟩
  intro obj h
  rw [rep_propscore_plot, if_neg (by omega)]

/-- C9 witness: an out-of-range prediction is kept by the summarizer but
lands in no bucket. -/
theorem hist25_conservation_witness :
    (1 : ℕ) ≤ 1 ∧ ¬ ((0:ℚ) ≤ 3/2 ∧ (3/2 : ℚ) ≤ 1) ∧
      rep_propscore_plot ⟨1, [], [], [], [], [[3/2]]⟩ = .ok [hist25 [3/2]] ∧
      bucketIdx (3/2) = none := by
  refine ⟨by norm_num, by norm_num, ?_, ?_⟩
  · exact hist25_conservation.2.2 ⟨1, [], [], [], [], [[3/2]]⟩ (by norm_num)
  · exact hist25_conservation.2.1 (3/2) (by norm_num)
